import Mathlib

/-!
Shallow embedding of `src/compunent/Line.tsx`.

The source is a React canvas component.  Its computational core is
`bezierCurveThrough(ctx, points, tension)`, which emits canvas-2d path
commands interpolating a smooth cubic curve through the given points, and
`renderCurves(timeStamp)`, the per-frame tick of the animation driver.

Numbers: the source computes with JS doubles.  We model a JS number as
`Option ℝ` where `none` models NaN; arithmetic on NaN propagates NaN.  The
only division in the source whose denominator can vanish is the tangent
normalization `rdx / rd` (and `rdy / rd`) with `rd = sqrt(rdx² + rdy²)`:
`rd = 0` forces `rdx = rdy = 0`, so in JS that division is `0/0 = NaN`.
Mapping every division by zero to `none` is therefore faithful for this
program (a nonzero numerator over a zero denominator, which in JS would be
an infinity, is unreachable here).  Input waypoints are ordinary finite
numbers in every call site, so they are modelled as plain reals; NaN can
only be created inside the interpolator.
-/

noncomputable section

open scoped Classical

/-- A JS number: `some x` is the finite double modelled as the real `x`,
`none` models NaN. -/
abbrev JNum := Option ℝ

/-- An input waypoint: a pair of finite coordinates. -/
abbrev Pt := ℝ × ℝ

/-- A computed (possibly NaN) point, e.g. a control point. -/
abbrev JPt := JNum × JNum

/-- JS addition, NaN-propagating. -/
def jadd : JNum → JNum → JNum
  | some a, some b => some (a + b)
  | _, _ => none

/-- JS subtraction, NaN-propagating. -/
def jsub : JNum → JNum → JNum
  | some a, some b => some (a - b)
  | _, _ => none

/-- JS multiplication, NaN-propagating. -/
def jmul : JNum → JNum → JNum
  | some a, some b => some (a * b)
  | _, _ => none

/-- JS division, NaN-propagating; division by zero yields NaN (faithful for
this program, where such a division always has a zero numerator: `0/0` is
NaN in JS). -/
def jdiv : JNum → JNum → JNum
  | some a, some b => if b = 0 then none else some (a / b)
  | _, _ => none

/-- Source line 30: `function h(x, y) { return Math.sqrt(x * x + y * y); }`.
Its arguments are always coordinate differences of input points, hence
finite reals, and `x*x + y*y ≥ 0`, so `Real.sqrt` is a faithful model. -/
def h (x y : ℝ) : ℝ := Real.sqrt (x * x + y * y)

/-- `points[i]` with the source's in-bounds access modelled by `getD`
(every access in the source is within bounds). -/
def pt (points : List Pt) (i : ℕ) : Pt := points.getD i (0, 0)

/-- Source lines 51-55: the normalized tangent `(dx, dy)` at interior point
`i`, computed as `(rdx / rd, rdy / rd)` for `rd = h rdx rdy` the distance
between the previous and next points.  NaN when those two points coincide. -/
def tangent (points : List Pt) (i : ℕ) : JPt :=
  let pp := pt points (i - 1)
  let pn := pt points (i + 1)
  let rdx := pn.1 - pp.1
  let rdy := pn.2 - pp.2
  let rd := h rdx rdy
  (jdiv (some rdx) (some rd), jdiv (some rdy) (some rd))

/-- Source line 61: `dp`, the distance from `points[i]` to `points[i-1]`. -/
def dpDist (points : List Pt) (i : ℕ) : ℝ :=
  h ((pt points i).1 - (pt points (i - 1)).1) ((pt points i).2 - (pt points (i - 1)).2)

/-- Source line 62: `dn`, the distance from `points[i]` to `points[i+1]`. -/
def dnDist (points : List Pt) (i : ℕ) : ℝ :=
  h ((pt points i).1 - (pt points (i + 1)).1) ((pt points i).2 - (pt points (i + 1)).2)

/-- Source lines 69-77: the two control points of interior point `i`:
`cp = points[i] - (dx,dy) * dp * tension` and
`cn = points[i] + (dx,dy) * dn * tension` (componentwise, in JS
arithmetic). -/
def interiorCP (points : List Pt) (t : ℝ) (i : ℕ) : JPt × JPt :=
  let pcur := pt points i
  let dx := (tangent points i).1
  let dy := (tangent points i).2
  let dp := dpDist points i
  let dn := dnDist points i
  ((jsub (some pcur.1) (jmul (jmul dx (some dp)) (some t)),
    jsub (some pcur.2) (jmul (jmul dy (some dp)) (some t))),
   (jadd (some pcur.1) (jmul (jmul dx (some dn)) (some t)),
    jadd (some pcur.2) (jmul (jmul dy (some dn)) (some t))))

/-- One entry of the source's `cpoints` array: an object that may carry a
previous control point `cp` and a next control point `cn` (`none` when the
field was never assigned, as for the two endpoint entries). -/
structure CPEntry where
  cp : Option JPt
  cn : Option JPt

/-- Source lines 86 and 92: `(a + b) / 2` in JS arithmetic, with `a` a
finite coordinate and `b` a possibly-NaN control-point coordinate. -/
def jmid (a : ℝ) (b : JNum) : JNum := jdiv (jadd (some a) b) (some 2)

/-- The source's `cpoints` array after lines 42-95 (only read when
`l ≥ 3`): the loop fills every interior entry with the two `interiorCP`
control points; then entry `0` is replaced by an object holding only `cn`,
the midpoint of `points[0]` and entry 1's `cp`, and entry `l-1` by an
object holding only `cp`, the midpoint of `points[l-1]` and entry
`l-2`'s `cn`.  Each index is written independently (interior writes happen
before the two endpoint overwrites and never alias them for `l ≥ 3`), so
the array is modelled index-wise. -/
def cpoints (points : List Pt) (t : ℝ) (i : ℕ) : CPEntry :=
  let l := points.length
  if i = 0 then
    { cp := none
      cn := some (jmid (pt points 0).1 ((interiorCP points t 1).1).1,
                  jmid (pt points 0).2 ((interiorCP points t 1).1).2) }
  else if i = l - 1 then
    { cp := some (jmid (pt points (l - 1)).1 ((interiorCP points t (l - 2)).2).1,
                  jmid (pt points (l - 1)).2 ((interiorCP points t (l - 2)).2).2)
      cn := none }
  else
    { cp := some (interiorCP points t i).1
      cn := some (interiorCP points t i).2 }

/-- A canvas-2d call observable on the drawing surface.  `beginPath`,
`moveTo`, `lineTo`, `bezierCurveTo` and `stroke` are issued by
`bezierCurveThrough`; `clearRect`, `setStrokeStyle` and `reset` are issued
by the surrounding component (`renderCurves` and the unmount cleanup). -/
inductive Cmd where
  | beginPath : Cmd
  | moveTo (x y : ℝ) : Cmd
  | lineTo (x y : ℝ) : Cmd
  | bezierCurveTo (c1x c1y c2x c2y : JNum) (x y : ℝ) : Cmd
  | stroke : Cmd
  | clearRect : Cmd
  | setStrokeStyle (r g b : ℤ) : Cmd
  | reset : Cmd

/-- Read the `cn` field of a `cpoints` entry as the drawing loop does
(`cpoints[i-1].cn`); the default is only a formal device, every read in the
source hits an assigned field. -/
def getcn (e : CPEntry) : JPt := e.cn.getD (none, none)

/-- Read the `cp` field of a `cpoints` entry as the drawing loop does
(`cpoints[i].cp`). -/
def getcp (e : CPEntry) : JPt := e.cp.getD (none, none)

/-- Source lines 4-112: the full sequence of canvas commands issued by one
call `bezierCurveThrough(ctx, points, tension)`.  `tension || 0.25`
replaces a zero (or absent) tension by the default `0.25`; fewer than two
points issue nothing; exactly two points issue a straight line; otherwise
the path is `beginPath`, `moveTo points[0]`, then for `i = 1 .. l-1` a
`bezierCurveTo` with first control `cpoints[i-1].cn`, second control
`cpoints[i].cp` and endpoint `points[i]`, then `stroke`. -/
def bezierCurveThrough (points : List Pt) (tension : ℝ) : List Cmd :=
  let t := if tension = 0 then 0.25 else tension
  let l := points.length
  if l < 2 then []
  else if l = 2 then
    [Cmd.beginPath, Cmd.moveTo (pt points 0).1 (pt points 0).2,
     Cmd.lineTo (pt points 1).1 (pt points 1).2, Cmd.stroke]
  else
    Cmd.beginPath :: Cmd.moveTo (pt points 0).1 (pt points 0).2 ::
    ((List.range (l - 1)).map (fun j =>
      let i := j + 1
      let cpp := getcn (cpoints points t (i - 1))
      let cpi := getcp (cpoints points t i)
      Cmd.bezierCurveTo cpp.1 cpp.2 cpi.1 cpi.2 (pt points i).1 (pt points i).2))
    ++ [Cmd.stroke]

/-- The points the accumulated path passes through, in order: the target of
the `moveTo` and the endpoint of every `bezierCurveTo` (spec-side notion,
used to state that the curve touches every waypoint). -/
def pathPoints : List Cmd → List Pt
  | [] => []
  | Cmd.moveTo x y :: rest => (x, y) :: pathPoints rest
  | Cmd.bezierCurveTo _ _ _ _ x y :: rest => (x, y) :: pathPoints rest
  | _ :: rest => pathPoints rest

/-- Spec-side Euclidean distance between two points. -/
def eDist (p q : Pt) : ℝ := Real.sqrt ((q.1 - p.1) ^ 2 + (q.2 - p.2) ^ 2)

/-- Spec-side midpoint of two points. -/
def midPt (p q : Pt) : Pt := ((p.1 + q.1) / 2, (p.2 + q.2) / 2)

/-!
The animation driver (`Line`'s effect, source lines 113-166).

`renderCurves(timeStamp)` is the per-frame tick: it derives
`elapsed = timeStamp - startFrame` (with `startFrame ??= timeStamp` on
entry), clears the canvas, computes `k = sin(progress·π·2) · 40`, and for
each of 70 curve indices sets the stroke style to the interpolated color
and calls `bezierCurveThrough` on a 4-point sequence, finally requesting
the next animation frame.  The unmount cleanup cancels the last request
and resets the context.
-/

/-- Source lines 134-136: red channel `round(38 + (238 - 38) · (i / 70))`
(Lean's `round` is `⌊x + 1/2⌋`, which matches JS `Math.round`). -/
def colorR (i : ℕ) : ℤ := round ((38 : ℝ) + (238 - 38) * ((i : ℝ) / 70))

/-- Source lines 137-139: green channel `round(69 + (0 - 69) · (i / 70))`. -/
def colorG (i : ℕ) : ℤ := round ((69 : ℝ) + (0 - 69) * ((i : ℝ) / 70))

/-- Source lines 140-142: blue channel `round(187 + (53 - 187) · (i / 70))`. -/
def colorB (i : ℕ) : ℤ := round ((187 : ℝ) + (53 - 187) * ((i : ℝ) / 70))

/-- Source lines 146-151: the 4-point waypoint sequence of curve `i` for
the current frame offset `k`. -/
def curvePoints (k : ℝ) (i : ℕ) : List Pt :=
  [(0, 0 + (i : ℝ) * 4),
   (230 + k, 100 + (i : ℝ) * 9 + k),
   (500 + k, 300 + (i : ℝ) * 9 + k),
   (800, 300 + (i : ℝ) * 8)]

/-- Source lines 124-154: the canvas commands issued by one execution of
`renderCurves`, given the reference timestamp `startFrame` in effect
during the call and the delivered `timeStamp`. -/
def tickTrace (startFrame timeStamp : ℝ) : List Cmd :=
  let elapsed := timeStamp - startFrame
  let progress := elapsed / 5000
  let k := Real.sin (progress * Real.pi * 2) * 40
  Cmd.clearRect ::
  (List.range 70).flatMap (fun i =>
    Cmd.setStrokeStyle (colorR i) (colorG i) (colorB i) ::
    bezierCurveThrough (curvePoints k i) 0.25)

/-- An event observable at the host boundary: a canvas command, an
animation-frame request (with its handle), or a cancellation. -/
inductive HostEv where
  | draw (c : Cmd) : HostEv
  | request (hdl : ℕ) : HostEv
  | cancel (hdl : ℕ) : HostEv

/-- The state of the mounted component together with the host scheduler:
`startFrame` and `lastFrame` are the closure variables of the effect
(source lines 119-120, `none` = not yet assigned), `pending` is the handle
of the animation-frame request currently pending with the host (at most
one exists, the one made by the latest tick), `nextHandle` is the host's
next fresh handle, `torn` records that the cleanup has run, and `events`
is the trace of host-visible events so far. -/
structure DriverState where
  startFrame : Option ℝ
  lastFrame : Option ℕ
  pending : Option ℕ
  nextHandle : ℕ
  torn : Bool
  events : List HostEv

/-- One execution of `renderCurves` from state `s` with timestamp `ts`:
`startFrame ??= ts` assigns the reference timestamp only if unset (source
line 122), the tick's canvas commands are emitted, and
`lastFrame = requestAnimationFrame(renderCurves)` (source line 156) stores
the fresh handle of the newly pending request. -/
def runTick (s : DriverState) (ts : ℝ) : DriverState :=
  let sf := s.startFrame.getD ts
  { startFrame := some sf
    lastFrame := some s.nextHandle
    pending := some s.nextHandle
    nextHandle := s.nextHandle + 1
    torn := s.torn
    events := s.events ++ (tickTrace sf ts).map HostEv.draw ++ [HostEv.request s.nextHandle] }

/-- The effect's cleanup (source lines 162-165):
`cancelAnimationFrame(lastFrame)` removes the pending request if it is the
stored one, and then `context.reset()` resets the drawing surface — a
surface mutation issued after the cancellation. -/
def cleanup (s : DriverState) : DriverState :=
  { s with
    torn := true
    pending := if s.pending = s.lastFrame then none else s.pending
    events := s.events ++ [HostEv.cancel (s.lastFrame.getD 0), HostEv.draw Cmd.reset] }

/-- Mounting the component (source line 159): the effect body runs
`renderCurves(performance.now())` directly from the initial state. -/
def mount (ts : ℝ) : DriverState :=
  runTick { startFrame := none, lastFrame := none, pending := none,
            nextHandle := 0, torn := false, events := [] } ts

/-- One host-driven transition: either the host delivers the pending
animation frame (running `renderCurves`), or the host tears the component
down (running the cleanup).  Nothing is enabled once the cleanup has
run. -/
inductive Step : DriverState → DriverState → Prop
  | frame (s : DriverState) (ts : ℝ) (hdl : ℕ) :
      s.torn = false → s.pending = some hdl →
      Step s (runTick { s with pending := none } ts)
  | tear (s : DriverState) :
      s.torn = false → Step s (cleanup s)

/-- States reachable from mounting at timestamp `ts0` by host steps. -/
def Reachable (ts0 : ℝ) (s : DriverState) : Prop :=
  Relation.ReflTransGen Step (mount ts0) s

/-- Source lines 122-124 in isolation, iterated over a run: given the
current value of `startFrame` and the list of delivered timestamps, the
list of `elapsed` values computed by the successive ticks
(`startFrame ??= ts; elapsed = ts - startFrame`). -/
def elapsedRun : Option ℝ → List ℝ → List ℝ
  | _, [] => []
  | sf, ts :: rest =>
    let sfv := sf.getD ts
    (ts - sfv) :: elapsedRun (some sfv) rest

/-- The value of `startFrame` after a run of ticks with the given
delivered timestamps. -/
def finalStart : Option ℝ → List ℝ → Option ℝ
  | sf, [] => sf
  | sf, ts :: rest => finalStart (some (sf.getD ts)) rest

/-!
Spec-side statement vocabulary: definitions written from the claims'
words, to be compared with the source-side computation above.
-/

/-- Spec-side normalized tangent at interior point `i`: the normalized
vector from `point[i-1]` to `point[i+1]`. -/
def specTangent (points : List Pt) (i : ℕ) : Pt :=
  (((pt points (i + 1)).1 - (pt points (i - 1)).1) /
     eDist (pt points (i - 1)) (pt points (i + 1)),
   ((pt points (i + 1)).2 - (pt points (i - 1)).2) /
     eDist (pt points (i - 1)) (pt points (i + 1)))

/-- C1's property at interior index `i`: the `cpoints` entry holds exactly
`point[i] ∓ tangent · d · tension` with `tangent` the normalized vector
from `point[i-1]` to `point[i+1]` and `d` the Euclidean distance to the
respective neighbour; the tangent has unit norm; and both control points
lie on the line through `point[i]` with direction `tangent`. -/
def InteriorControlFormula (points : List Pt) (tension : ℝ) (i : ℕ) : Prop :=
  (cpoints points tension i).cp =
    some (some ((pt points i).1 -
                  (specTangent points i).1 * eDist (pt points i) (pt points (i - 1)) * tension),
          some ((pt points i).2 -
                  (specTangent points i).2 * eDist (pt points i) (pt points (i - 1)) * tension)) ∧
  (cpoints points tension i).cn =
    some (some ((pt points i).1 +
                  (specTangent points i).1 * eDist (pt points i) (pt points (i + 1)) * tension),
          some ((pt points i).2 +
                  (specTangent points i).2 * eDist (pt points i) (pt points (i + 1)) * tension)) ∧
  (specTangent points i).1 ^ 2 + (specTangent points i).2 ^ 2 = 1 ∧
  (∃ a b : ℝ,
    ((pt points i).1 - (specTangent points i).1 * eDist (pt points i) (pt points (i - 1)) * tension,
     (pt points i).2 - (specTangent points i).2 * eDist (pt points i) (pt points (i - 1)) * tension)
      = ((pt points i).1 + a * (specTangent points i).1,
         (pt points i).2 + a * (specTangent points i).2) ∧
    ((pt points i).1 + (specTangent points i).1 * eDist (pt points i) (pt points (i + 1)) * tension,
     (pt points i).2 + (specTangent points i).2 * eDist (pt points i) (pt points (i + 1)) * tension)
      = ((pt points i).1 + b * (specTangent points i).1,
         (pt points i).2 + b * (specTangent points i).2))

/-- C2's property: endpoint `0` carries only an outgoing control point,
the midpoint of `point[0]` and the incoming control point of `point[1]`;
endpoint `n-1` carries only an incoming control point, the midpoint of
`point[n-1]` and the outgoing control point of `point[n-2]`. -/
def EndpointControlSpec (points : List Pt) (t : ℝ) : Prop :=
  (cpoints points t 0).cp = none ∧
  (cpoints points t (points.length - 1)).cn = none ∧
  (∃ c1 : JPt,
    (cpoints points t 1).cp = some c1 ∧
    (cpoints points t 0).cn =
      some (jmid (pt points 0).1 c1.1, jmid (pt points 0).2 c1.2) ∧
    ∀ cx cy : ℝ, c1 = (some cx, some cy) →
      (cpoints points t 0).cn =
        some (some (midPt (pt points 0) (cx, cy)).1,
              some (midPt (pt points 0) (cx, cy)).2)) ∧
  (∃ c2 : JPt,
    (cpoints points t (points.length - 2)).cn = some c2 ∧
    (cpoints points t (points.length - 1)).cp =
      some (jmid (pt points (points.length - 1)).1 c2.1,
            jmid (pt points (points.length - 1)).2 c2.2) ∧
    ∀ cx cy : ℝ, c2 = (some cx, some cy) →
      (cpoints points t (points.length - 1)).cp =
        some (some (midPt (pt points (points.length - 1)) (cx, cy)).1,
              some (midPt (pt points (points.length - 1)) (cx, cy)).2))

/-- C3's property: the issued commands are exactly one `beginPath`, one
`moveTo point[0]`, then for each segment a `bezierCurveTo` using the
outgoing control of its start point and the incoming control of its end
point and terminating at that end point, then one `stroke`; the
accumulated path's `moveTo`/`bezierCurveTo` endpoints are the input points
in order; and no clear, style or reset operation is issued. -/
def TraceStructure (points : List Pt) (tension : ℝ) : Prop :=
  bezierCurveThrough points tension =
    Cmd.beginPath :: Cmd.moveTo (pt points 0).1 (pt points 0).2 ::
    ((List.range (points.length - 1)).map (fun j =>
      Cmd.bezierCurveTo
        (getcn (cpoints points (if tension = 0 then 0.25 else tension) j)).1
        (getcn (cpoints points (if tension = 0 then 0.25 else tension) j)).2
        (getcp (cpoints points (if tension = 0 then 0.25 else tension) (j + 1))).1
        (getcp (cpoints points (if tension = 0 then 0.25 else tension) (j + 1))).2
        (pt points (j + 1)).1 (pt points (j + 1)).2))
    ++ [Cmd.stroke] ∧
  pathPoints (bezierCurveThrough points tension) = points ∧
  (∀ c ∈ bezierCurveThrough points tension,
    c ≠ Cmd.clearRect ∧ c ≠ Cmd.reset ∧ ∀ r g b : ℤ, c ≠ Cmd.setStrokeStyle r g b)

/-- C5's (amended) property at interior index `i`: the control points
computed with tension `2t` are twice as far from `point[i]` as those
computed with tension `t`. -/
def TensionDoubles (points : List Pt) (t : ℝ) (i : ℕ) : Prop :=
  ∃ c1 c2 d1 d2 : Pt,
    (cpoints points t i).cp = some (some c1.1, some c1.2) ∧
    (cpoints points (2 * t) i).cp = some (some c2.1, some c2.2) ∧
    (cpoints points t i).cn = some (some d1.1, some d1.2) ∧
    (cpoints points (2 * t) i).cn = some (some d2.1, some d2.2) ∧
    eDist (pt points i) c2 = 2 * eDist (pt points i) c1 ∧
    eDist (pt points i) d2 = 2 * eDist (pt points i) d1

/-- C6's property at interior index `i` with coinciding neighbours: the
unguarded normalization divides by zero, the tangent and both of `i`'s
control points are NaN for every tension, and the call still issues the
full-length command sequence, the segment ending at `point[i]` carrying
NaN incoming control coordinates. -/
def NanPropagation (points : List Pt) (tension : ℝ) (i : ℕ) : Prop :=
  tangent points i = (none, none) ∧
  (∀ t : ℝ, (cpoints points t i).cp = some (none, none) ∧
            (cpoints points t i).cn = some (none, none)) ∧
  (bezierCurveThrough points tension).length = points.length + 2 ∧
  (∃ c1x c1y : JNum,
    (bezierCurveThrough points tension).getD (i + 1) Cmd.stroke =
      Cmd.bezierCurveTo c1x c1y none none (pt points i).1 (pt points i).2)

/-! Helper lemmas about the JS arithmetic and the hypotenuse. -/

theorem jadd_some (a b : ℝ) : jadd (some a) (some b) = some (a + b) := rfl

theorem jsub_some (a b : ℝ) : jsub (some a) (some b) = some (a - b) := rfl

theorem jmul_some (a b : ℝ) : jmul (some a) (some b) = some (a * b) := rfl

theorem jmul_none_left (b : JNum) : jmul none b = none := rfl

theorem jmul_none_right (a : JNum) : jmul a none = none := by cases a <;> rfl

theorem jsub_none_right (a : JNum) : jsub a none = none := by cases a <;> rfl

theorem jadd_none_right (a : JNum) : jadd a none = none := by cases a <;> rfl

theorem jdiv_some_of_ne (a b : ℝ) (hb : b ≠ 0) :
    jdiv (some a) (some b) = some (a / b) := by
  simp [jdiv, hb]

theorem jdiv_by_zero (a : ℝ) : jdiv (some a) (some 0) = none := by
  simp [jdiv]

theorem h_nonneg (x y : ℝ) : 0 ≤ h x y := Real.sqrt_nonneg _

theorem h_eq_zero_iff (x y : ℝ) : h x y = 0 ↔ x = 0 ∧ y = 0 := by
  unfold h
  rw [show x * x + y * y = x ^ 2 + y ^ 2 by ring,
    Real.sqrt_eq_zero (by positivity)]
  constructor
  · intro hz
    have hx : x ^ 2 = 0 := by nlinarith [sq_nonneg x, sq_nonneg y]
    have hy : y ^ 2 = 0 := by nlinarith [sq_nonneg x, sq_nonneg y]
    exact ⟨pow_eq_zero_iff two_ne_zero |>.mp hx, pow_eq_zero_iff two_ne_zero |>.mp hy⟩
  · rintro ⟨hx, hy⟩
    simp [hx, hy]

theorem h_ne_zero_of_ne (p q : Pt) (hne : p ≠ q) :
    h (q.1 - p.1) (q.2 - p.2) ≠ 0 := by
  rw [Ne, h_eq_zero_iff]
  rintro ⟨h1, h2⟩
  exact hne (Prod.ext_iff.mpr ⟨by linarith, by linarith⟩)

theorem eDist_eq_h (p q : Pt) : eDist p q = h (q.1 - p.1) (q.2 - p.2) := by
  unfold eDist h
  congr 1
  ring

theorem dpDist_eq_eDist (points : List Pt) (i : ℕ) :
    dpDist points i = eDist (pt points i) (pt points (i - 1)) := by
  unfold dpDist eDist h
  congr 1
  ring

theorem dnDist_eq_eDist (points : List Pt) (i : ℕ) :
    dnDist points i = eDist (pt points i) (pt points (i + 1)) := by
  unfold dnDist eDist h
  congr 1
  ring

theorem sqrt_four : Real.sqrt 4 = 2 := by
  rw [show (4 : ℝ) = 2 ^ 2 by norm_num, Real.sqrt_sq (by norm_num : (0:ℝ) ≤ 2)]

/-! Helper lemmas about `cpoints` and `tangent`. -/

theorem cpoints_interior (points : List Pt) (t : ℝ) (i : ℕ)
    (h3 : 3 ≤ points.length) (hlo : 1 ≤ i) (hhi : i ≤ points.length - 2) :
    cpoints points t i =
      { cp := some (interiorCP points t i).1, cn := some (interiorCP points t i).2 } := by
  have hi0 : i ≠ 0 := by omega
  have hil : i ≠ points.length - 1 := by omega
  simp [cpoints, hi0, hil]

theorem tangent_of_ne (points : List Pt) (i : ℕ)
    (hne : pt points (i - 1) ≠ pt points (i + 1)) :
    tangent points i =
      (some (((pt points (i + 1)).1 - (pt points (i - 1)).1) /
               h ((pt points (i + 1)).1 - (pt points (i - 1)).1)
                 ((pt points (i + 1)).2 - (pt points (i - 1)).2)),
       some (((pt points (i + 1)).2 - (pt points (i - 1)).2) /
               h ((pt points (i + 1)).1 - (pt points (i - 1)).1)
                 ((pt points (i + 1)).2 - (pt points (i - 1)).2))) := by
  have hrd := h_ne_zero_of_ne _ _ hne
  simp [tangent, jdiv, hrd]

theorem tangent_of_eq (points : List Pt) (i : ℕ)
    (heq : pt points (i - 1) = pt points (i + 1)) :
    tangent points i = (none, none) := by
  simp [tangent, heq, h, jdiv]

theorem jmid_some (a c : ℝ) : jmid a (some c) = some ((a + c) / 2) := by
  simp [jmid, jadd, jdiv_some_of_ne _ _ two_ne_zero]

/-- C2: for `n ≥ 3` points, the outgoing control point of `point[0]` is
the midpoint of `point[0]` and the incoming control point of `point[1]`;
the incoming control point of `point[n-1]` is the midpoint of `point[n-1]`
and the outgoing control point of `point[n-2]`; and these are the only
control points the two endpoint entries carry. -/
theorem bezier_endpoint_midpoints (points : List Pt) (t : ℝ)
    (h3 : 3 ≤ points.length) :
    EndpointControlSpec points t := by
  have h1 := cpoints_interior points t 1 h3 (by omega) (by omega)
  have h2 := cpoints_interior points t (points.length - 2) h3 (by omega) (by omega)
  have hl0 : points.length - 1 ≠ 0 := by omega
  refine ⟨by simp [cpoints], by simp [cpoints, hl0], ?_, ?_⟩
  · refine ⟨(interiorCP points t 1).1, by rw [h1], by simp [cpoints], ?_⟩
    intro cx cy hcc
    simp [cpoints, hcc, jmid_some, midPt]
  · refine ⟨(interiorCP points t (points.length - 2)).2, by rw [h2], ?_, ?_⟩
    · simp [cpoints, hl0]
    · intro cx cy hcc
      simp [cpoints, hl0, hcc, jmid_some, midPt]

/-- Witness for C2 on the concrete three-point input
`[(0,0), (1,0), (2,0)]`. -/
theorem bezier_endpoint_midpoints_witness :
    EndpointControlSpec [((0:ℝ), (0:ℝ)), ((1:ℝ), (0:ℝ)), ((2:ℝ), (0:ℝ))] 1 :=
  bezier_endpoint_midpoints [((0:ℝ), (0:ℝ)), ((1:ℝ), (0:ℝ)), ((2:ℝ), (0:ℝ))] 1 (by simp)

/-- C4: for an input of length 0 or 1, `bezierCurveThrough` issues no
drawing command at all (a no-op, not an error), and for an input of length
exactly 2 it issues exactly one straight-line stroke between the two
points: `beginPath`, `moveTo point[0]`, `lineTo point[1]`, `stroke`. -/
theorem bezier_degenerate_inputs (points : List Pt) (tension : ℝ) :
    (points.length < 2 → bezierCurveThrough points tension = []) ∧
    (points.length = 2 → bezierCurveThrough points tension =
      [Cmd.beginPath, Cmd.moveTo (pt points 0).1 (pt points 0).2,
       Cmd.lineTo (pt points 1).1 (pt points 1).2, Cmd.stroke]) := by
  constructor
  · intro hl
    simp [bezierCurveThrough, hl]
  · intro hl
    simp [bezierCurveThrough, hl]

/-- Witness for C4: an empty input issues nothing; the two-point input
`[(0,0), (3,4)]` issues exactly the straight-line stroke. -/
theorem bezier_degenerate_inputs_witness :
    bezierCurveThrough ([] : List Pt) 1 = [] ∧
    bezierCurveThrough [((0:ℝ), (0:ℝ)), ((3:ℝ), (4:ℝ))] 1 =
      [Cmd.beginPath,
       Cmd.moveTo (pt [((0:ℝ), (0:ℝ)), ((3:ℝ), (4:ℝ))] 0).1
                  (pt [((0:ℝ), (0:ℝ)), ((3:ℝ), (4:ℝ))] 0).2,
       Cmd.lineTo (pt [((0:ℝ), (0:ℝ)), ((3:ℝ), (4:ℝ))] 1).1
                  (pt [((0:ℝ), (0:ℝ)), ((3:ℝ), (4:ℝ))] 1).2,
       Cmd.stroke] :=
  ⟨(bezier_degenerate_inputs [] 1).1 (by simp),
   (bezier_degenerate_inputs [((0:ℝ), (0:ℝ)), ((3:ℝ), (4:ℝ))] 1).2 (by simp)⟩

theorem pathPoints_append (a b : List Cmd) :
    pathPoints (a ++ b) = pathPoints a ++ pathPoints b := by
  induction a with
  | nil => rfl
  | cons c rest ih => cases c <;> simp [pathPoints, ih]

theorem range_map_pt (points : List Pt) :
    (List.range points.length).map (fun i => pt points i) = points := by
  apply List.ext_getElem
  · simp
  · intro n h1 h2
    simp only [List.getElem_map, List.getElem_range]
    exact List.getD_eq_getElem points (0, 0) h2

/-- The `l ≥ 3` branch of `bezierCurveThrough`, written out. -/
theorem bezier_three_eq (points : List Pt) (tension : ℝ)
    (h3 : 3 ≤ points.length) :
    bezierCurveThrough points tension =
      Cmd.beginPath :: Cmd.moveTo (pt points 0).1 (pt points 0).2 ::
      ((List.range (points.length - 1)).map (fun j =>
        Cmd.bezierCurveTo
          (getcn (cpoints points (if tension = 0 then 0.25 else tension) j)).1
          (getcn (cpoints points (if tension = 0 then 0.25 else tension) j)).2
          (getcp (cpoints points (if tension = 0 then 0.25 else tension) (j + 1))).1
          (getcp (cpoints points (if tension = 0 then 0.25 else tension) (j + 1))).2
          (pt points (j + 1)).1 (pt points (j + 1)).2))
      ++ [Cmd.stroke] := by
  have hga : ¬ points.length < 2 := by omega
  have hgb : points.length ≠ 2 := by omega
  simp only [bezierCurveThrough, hga, hgb, if_false]
  rfl

/-- C3: for `n ≥ 3` points the call issues exactly one `beginPath`, one
`moveTo point[0]`, then `n-1` `bezierCurveTo` commands — segment `i` using
the outgoing control point of `point[i]` and the incoming control point of
`point[i+1]` and terminating at `point[i+1]` — then one `stroke`, in that
exact order, with no clear, stroke-style or reset operation; consequently
the accumulated path's `moveTo`/`bezierCurveTo` endpoints are exactly the
input points in order. -/
theorem pathPoints_nil : pathPoints [] = [] := rfl

theorem pathPoints_beginPath (rest : List Cmd) :
    pathPoints (Cmd.beginPath :: rest) = pathPoints rest := rfl

theorem pathPoints_stroke (rest : List Cmd) :
    pathPoints (Cmd.stroke :: rest) = pathPoints rest := rfl

theorem pathPoints_moveTo (x y : ℝ) (rest : List Cmd) :
    pathPoints (Cmd.moveTo x y :: rest) = (x, y) :: pathPoints rest := rfl

theorem pathPoints_bezier (a b c d : JNum) (x y : ℝ) (rest : List Cmd) :
    pathPoints (Cmd.bezierCurveTo a b c d x y :: rest) = (x, y) :: pathPoints rest := rfl

/-- C3: for `n ≥ 3` points the call issues exactly one `beginPath`, one
`moveTo point[0]`, then `n-1` `bezierCurveTo` commands — segment `i` using
the outgoing control point of `point[i]` and the incoming control point of
`point[i+1]` and terminating at `point[i+1]` — then one `stroke`, in that
exact order, with no clear, stroke-style or reset operation; consequently
the accumulated path's `moveTo`/`bezierCurveTo` endpoints are exactly the
input points in order. -/
theorem bezier_trace_structure (points : List Pt) (tension : ℝ)
    (h3 : 3 ≤ points.length) :
    TraceStructure points tension := by
  have heq := bezier_three_eq points tension h3
  refine ⟨heq, ?_, ?_⟩
  · rw [heq]
    have hmap : ∀ ls : List ℕ, pathPoints
        (ls.map (fun j =>
          Cmd.bezierCurveTo
            (getcn (cpoints points (if tension = 0 then 0.25 else tension) j)).1
            (getcn (cpoints points (if tension = 0 then 0.25 else tension) j)).2
            (getcp (cpoints points (if tension = 0 then 0.25 else tension) (j + 1))).1
            (getcp (cpoints points (if tension = 0 then 0.25 else tension) (j + 1))).2
            (pt points (j + 1)).1 (pt points (j + 1)).2)) =
        ls.map (fun j => pt points (j + 1)) := by
      intro ls
      induction ls with
      | nil => rfl
      | cons a rest ih => simp [List.map_cons, pathPoints_bezier, ih]
    rw [pathPoints_append, pathPoints_beginPath, pathPoints_moveTo, hmap,
      pathPoints_stroke, pathPoints_nil, List.append_nil]
    conv_rhs => rw [← range_map_pt points,
      show points.length = (points.length - 1) + 1 from by omega,
      List.range_succ_eq_map]
    simp [List.map_map, Function.comp_def, Nat.succ_eq_add_one]
  · intro c hc
    rw [heq] at hc
    refine ⟨?_, ?_, ?_⟩
    · intro hcc
      subst hcc
      simp [List.mem_append, List.mem_cons, List.mem_map] at hc
    · intro hcc
      subst hcc
      simp [List.mem_append, List.mem_cons, List.mem_map] at hc
    · intro r g b hcc
      subst hcc
      simp [List.mem_append, List.mem_cons, List.mem_map] at hc

/-- With distinct neighbours the interior computation produces finite
control points given by the normalized-tangent formula. -/
theorem interiorCP_of_ne (points : List Pt) (t : ℝ) (i : ℕ)
    (hne : pt points (i - 1) ≠ pt points (i + 1)) :
    interiorCP points t i =
      ((some ((pt points i).1 - (specTangent points i).1 * dpDist points i * t),
        some ((pt points i).2 - (specTangent points i).2 * dpDist points i * t)),
       (some ((pt points i).1 + (specTangent points i).1 * dnDist points i * t),
        some ((pt points i).2 + (specTangent points i).2 * dnDist points i * t))) := by
  have htan := tangent_of_ne points i hne
  have hed := eDist_eq_h (pt points (i - 1)) (pt points (i + 1))
  simp only [interiorCP, htan, jmul_some, jsub_some, jadd_some, specTangent, hed]

theorem eDist_offset_sub (p : Pt) (a b : ℝ) :
    eDist p (p.1 - a, p.2 - b) = Real.sqrt (a ^ 2 + b ^ 2) := by
  unfold eDist
  congr 1
  ring

theorem eDist_offset_add (p : Pt) (a b : ℝ) :
    eDist p (p.1 + a, p.2 + b) = Real.sqrt (a ^ 2 + b ^ 2) := by
  unfold eDist
  congr 1
  ring

theorem sqrt_double (a b : ℝ) :
    Real.sqrt ((2 * a) ^ 2 + (2 * b) ^ 2) = 2 * Real.sqrt (a ^ 2 + b ^ 2) := by
  rw [show (2 * a) ^ 2 + (2 * b) ^ 2 = 2 ^ 2 * (a ^ 2 + b ^ 2) by ring,
    Real.sqrt_mul (by positivity), Real.sqrt_sq (by norm_num : (0:ℝ) ≤ 2)]

/-- C1: at every interior index `i` with distinct neighbours
`point[i-1] ≠ point[i+1]` (and a nonzero tension, so that the default is
not substituted), the computed entry holds exactly
`point[i] - tangent·dp·tension` and `point[i] + tangent·dn·tension` with
`tangent` the normalized vector from `point[i-1]` to `point[i+1]` and
`dp`, `dn` the Euclidean distances from `point[i]` to its neighbours; the
tangent has unit norm and both control points lie on the line through
`point[i]` in the tangent direction. -/
theorem interior_tangent_control_points (points : List Pt) (tension : ℝ) (i : ℕ)
    (h3 : 3 ≤ points.length) (hlo : 1 ≤ i) (hhi : i ≤ points.length - 2)
    (ht : tension ≠ 0) (hne : pt points (i - 1) ≠ pt points (i + 1)) :
    InteriorControlFormula points tension i := by
  have hchar := cpoints_interior points tension i h3 hlo hhi
  have htan := tangent_of_ne points i hne
  have hrd : h ((pt points (i + 1)).1 - (pt points (i - 1)).1)
      ((pt points (i + 1)).2 - (pt points (i - 1)).2) ≠ 0 := h_ne_zero_of_ne _ _ hne
  have hed : eDist (pt points (i - 1)) (pt points (i + 1)) =
      h ((pt points (i + 1)).1 - (pt points (i - 1)).1)
        ((pt points (i + 1)).2 - (pt points (i - 1)).2) := eDist_eq_h _ _
  refine ⟨?_, ?_, ?_, ?_⟩
  · rw [hchar]
    show some (interiorCP points tension i).1 = _
    rw [interiorCP_of_ne points tension i hne]
    simp only [← dpDist_eq_eDist]
  · rw [hchar]
    show some (interiorCP points tension i).2 = _
    rw [interiorCP_of_ne points tension i hne]
    simp only [← dnDist_eq_eDist]
  · have hd : eDist (pt points (i - 1)) (pt points (i + 1)) ≠ 0 := by
      rw [hed]; exact hrd
    have hsq : eDist (pt points (i - 1)) (pt points (i + 1)) ^ 2 =
        ((pt points (i + 1)).1 - (pt points (i - 1)).1) ^ 2 +
        ((pt points (i + 1)).2 - (pt points (i - 1)).2) ^ 2 := by
      unfold eDist
      exact Real.sq_sqrt (by positivity)
    simp only [specTangent]
    field_simp
    linarith [hsq]
  · exact ⟨-(eDist (pt points i) (pt points (i - 1)) * tension),
      eDist (pt points i) (pt points (i + 1)) * tension,
      Prod.ext_iff.mpr ⟨by ring, by ring⟩,
      Prod.ext_iff.mpr ⟨by ring, by ring⟩⟩

/-- Witness for C1 on the concrete input `[(0,0), (1,0), (2,0)]` at
interior index 1 with tension 1 (neighbours `(0,0)` and `(2,0)` are
distinct). -/
theorem interior_tangent_control_points_witness :
    InteriorControlFormula [((0:ℝ), (0:ℝ)), ((1:ℝ), (0:ℝ)), ((2:ℝ), (0:ℝ))] 1 1 :=
  interior_tangent_control_points [((0:ℝ), (0:ℝ)), ((1:ℝ), (0:ℝ)), ((2:ℝ), (0:ℝ))] 1 1
    (by norm_num) (by norm_num) (by norm_num) (by norm_num)
    (by
      intro hcontra
      have hfst := congrArg Prod.fst hcontra
      norm_num [pt] at hfst)

/-- The incoming control point of interior point 1 on the collinear input
`[(0,0), (1,0), (2,0)]`: the tangent is `(1,0)`, the distance to the
previous point is 1, so the control point is `(1 - t, 0)`. -/
theorem interior1_three_collinear (t : ℝ) :
    (interiorCP [((0:ℝ), (0:ℝ)), ((1:ℝ), (0:ℝ)), ((2:ℝ), (0:ℝ))] t 1).1 =
      (some (1 - t), some 0) := by
  have hp0 : pt [((0:ℝ), (0:ℝ)), ((1:ℝ), (0:ℝ)), ((2:ℝ), (0:ℝ))] 0 = ((0:ℝ), (0:ℝ)) := rfl
  have hp1 : pt [((0:ℝ), (0:ℝ)), ((1:ℝ), (0:ℝ)), ((2:ℝ), (0:ℝ))] 1 = ((1:ℝ), (0:ℝ)) := rfl
  have hp2 : pt [((0:ℝ), (0:ℝ)), ((1:ℝ), (0:ℝ)), ((2:ℝ), (0:ℝ))] 2 = ((2:ℝ), (0:ℝ)) := rfl
  simp only [interiorCP, tangent, dpDist, dnDist, hp0, hp1, hp2]
  norm_num [h, sqrt_four, jdiv, jmul, jsub, jadd]

/-- The outgoing control point of endpoint 0 on the collinear input
`[(0,0), (1,0), (2,0)]`: the midpoint of `(0,0)` and `(1 - t, 0)`. -/
theorem cn0_three_collinear (t : ℝ) :
    (cpoints [((0:ℝ), (0:ℝ)), ((1:ℝ), (0:ℝ)), ((2:ℝ), (0:ℝ))] t 0).cn =
      some (some ((1 - t) / 2), some 0) := by
  have hp0 : pt [((0:ℝ), (0:ℝ)), ((1:ℝ), (0:ℝ)), ((2:ℝ), (0:ℝ))] 0 = ((0:ℝ), (0:ℝ)) := rfl
  simp only [cpoints, if_pos rfl]
  rw [interior1_three_collinear, hp0]
  norm_num [jmid_some]

/-- Counterexample to C5 as stated: on input `[(0,0), (1,0), (2,0)]`, the
outgoing control point of the first endpoint lies at distance `3/8` from
its waypoint `(0,0)` at tension `1/4`, but at distance `1/4` (not
`2 · 3/8 = 3/4`) at the doubled tension `1/2`: the midpoint-derived
endpoint control points are affine, not linear, in the tension. -/
theorem tension_scaling_endpoint_counterexample :
    (cpoints [((0:ℝ), (0:ℝ)), ((1:ℝ), (0:ℝ)), ((2:ℝ), (0:ℝ))] (1/4) 0).cn =
      some (some (3/8), some 0) ∧
    (cpoints [((0:ℝ), (0:ℝ)), ((1:ℝ), (0:ℝ)), ((2:ℝ), (0:ℝ))] (1/2) 0).cn =
      some (some (1/4), some 0) ∧
    eDist ((0:ℝ), (0:ℝ)) ((1/4 : ℝ), (0:ℝ)) ≠
      2 * eDist ((0:ℝ), (0:ℝ)) ((3/8 : ℝ), (0:ℝ)) := by
  have e1 : eDist ((0:ℝ), (0:ℝ)) ((1/4 : ℝ), (0:ℝ)) = 1/4 := by
    unfold eDist
    rw [show ((1/4 : ℝ) - 0) ^ 2 + ((0:ℝ) - 0) ^ 2 = (1/4 : ℝ) ^ 2 by norm_num,
      Real.sqrt_sq (by norm_num : (0:ℝ) ≤ 1/4)]
  have e2 : eDist ((0:ℝ), (0:ℝ)) ((3/8 : ℝ), (0:ℝ)) = 3/8 := by
    unfold eDist
    rw [show ((3/8 : ℝ) - 0) ^ 2 + ((0:ℝ) - 0) ^ 2 = (3/8 : ℝ) ^ 2 by norm_num,
      Real.sqrt_sq (by norm_num : (0:ℝ) ≤ 3/8)]
  refine ⟨?_, ?_, ?_⟩
  · rw [cn0_three_collinear]
    norm_num
  · rw [cn0_three_collinear]
    norm_num
  · rw [e1, e2]
    norm_num

/-- C5 (amended): at every interior index with distinct neighbours,
doubling a nonzero tension doubles the distance from `point[i]` to each of
its two control points; the midpoint-derived endpoint control points are
excluded (they are affine, not linear, in the tension, as the
counterexample shows). -/
theorem tension_scaling_interior (points : List Pt) (t : ℝ) (i : ℕ)
    (h3 : 3 ≤ points.length) (hlo : 1 ≤ i) (hhi : i ≤ points.length - 2)
    (ht : t ≠ 0) (hne : pt points (i - 1) ≠ pt points (i + 1)) :
    TensionDoubles points t i := by
  have hchar1 := cpoints_interior points t i h3 hlo hhi
  have hchar2 := cpoints_interior points (2 * t) i h3 hlo hhi
  have hint1 := interiorCP_of_ne points t i hne
  have hint2 := interiorCP_of_ne points (2 * t) i hne
  refine ⟨((pt points i).1 - (specTangent points i).1 * dpDist points i * t,
           (pt points i).2 - (specTangent points i).2 * dpDist points i * t),
          ((pt points i).1 - (specTangent points i).1 * dpDist points i * (2 * t),
           (pt points i).2 - (specTangent points i).2 * dpDist points i * (2 * t)),
          ((pt points i).1 + (specTangent points i).1 * dnDist points i * t,
           (pt points i).2 + (specTangent points i).2 * dnDist points i * t),
          ((pt points i).1 + (specTangent points i).1 * dnDist points i * (2 * t),
           (pt points i).2 + (specTangent points i).2 * dnDist points i * (2 * t)),
          ?_, ?_, ?_, ?_, ?_, ?_⟩
  · rw [hchar1]
    show some (interiorCP points t i).1 = _
    rw [hint1]
  · rw [hchar2]
    show some (interiorCP points (2 * t) i).1 = _
    rw [hint2]
  · rw [hchar1]
    show some (interiorCP points t i).2 = _
    rw [hint1]
  · rw [hchar2]
    show some (interiorCP points (2 * t) i).2 = _
    rw [hint2]
  · rw [eDist_offset_sub, eDist_offset_sub,
      show ((specTangent points i).1 * dpDist points i * (2 * t)) ^ 2 +
           ((specTangent points i).2 * dpDist points i * (2 * t)) ^ 2 =
           (2 * ((specTangent points i).1 * dpDist points i * t)) ^ 2 +
           (2 * ((specTangent points i).2 * dpDist points i * t)) ^ 2 from by ring,
      sqrt_double]
  · rw [eDist_offset_add, eDist_offset_add,
      show ((specTangent points i).1 * dnDist points i * (2 * t)) ^ 2 +
           ((specTangent points i).2 * dnDist points i * (2 * t)) ^ 2 =
           (2 * ((specTangent points i).1 * dnDist points i * t)) ^ 2 +
           (2 * ((specTangent points i).2 * dnDist points i * t)) ^ 2 from by ring,
      sqrt_double]

/-- Witness for the amended C5 on the concrete input `[(0,0), (1,0), (2,0)]`
at interior index 1 with tension 1. -/
theorem tension_scaling_interior_witness :
    TensionDoubles [((0:ℝ), (0:ℝ)), ((1:ℝ), (0:ℝ)), ((2:ℝ), (0:ℝ))] 1 1 :=
  tension_scaling_interior [((0:ℝ), (0:ℝ)), ((1:ℝ), (0:ℝ)), ((2:ℝ), (0:ℝ))] 1 1
    (by norm_num) (by norm_num) (by norm_num) (by norm_num)
    (by
      intro hcontra
      have hfst := congrArg Prod.fst hcontra
      norm_num [pt] at hfst)

/-- Witness for C3 on the concrete input `[(0,0), (1,0), (2,0)]` with
tension 1. -/
theorem bezier_trace_structure_witness :
    TraceStructure [((0:ℝ), (0:ℝ)), ((1:ℝ), (0:ℝ)), ((2:ℝ), (0:ℝ))] 1 :=
  bezier_trace_structure [((0:ℝ), (0:ℝ)), ((1:ℝ), (0:ℝ)), ((2:ℝ), (0:ℝ))] 1 (by simp)

/-- C6: when an interior point's previous and next neighbours coincide,
the unguarded normalization divides the zero deltas by the zero distance
(JS `0/0 = NaN`), the tangent and both control points of that point are
NaN for every tension, and the call still completes, issuing the full
`n + 2` command sequence with the NaN control coordinates inside the
`bezierCurveTo` ending at `point[i]`. -/
theorem nan_propagation_coincident_neighbours (points : List Pt) (tension : ℝ) (i : ℕ)
    (h3 : 3 ≤ points.length) (hlo : 1 ≤ i) (hhi : i ≤ points.length - 2)
    (heq : pt points (i - 1) = pt points (i + 1)) :
    NanPropagation points tension i := by
  have htan := tangent_of_eq points i heq
  have hint : ∀ t : ℝ, interiorCP points t i = ((none, none), (none, none)) := by
    intro t
    simp only [interiorCP, htan, jmul_none_left, jsub_none_right, jadd_none_right]
  refine ⟨htan, ?_, ?_, ?_⟩
  · intro t
    rw [cpoints_interior points t i h3 hlo hhi, hint t]
    exact ⟨rfl, rfl⟩
  · rw [bezier_three_eq points tension h3]
    simp only [List.length_append, List.length_cons, List.length_map,
      List.length_range, List.length_nil]
    omega
  · obtain ⟨m, rfl⟩ : ∃ m, i = m + 1 := ⟨i - 1, by omega⟩
    have hcp : getcp (cpoints points (if tension = 0 then 0.25 else tension) (m + 1)) =
        ((none : JNum), (none : JNum)) := by
      rw [cpoints_interior points _ (m + 1) h3 hlo hhi, hint]
      rfl
    refine ⟨(getcn (cpoints points (if tension = 0 then 0.25 else tension) m)).1,
            (getcn (cpoints points (if tension = 0 then 0.25 else tension) m)).2, ?_⟩
    rw [bezier_three_eq points tension h3]
    rw [List.getD_append _ _ _ _ (by
      simp only [List.length_cons, List.length_map, List.length_range]
      omega)]
    rw [List.getD_cons_succ, List.getD_cons_succ]
    rw [List.getD_eq_getElem _ _ (by
      simp only [List.length_map, List.length_range]
      omega)]
    rw [List.getElem_map, List.getElem_range]
    rw [hcp]

/-- Witness for C6 on the concrete input `[(0,0), (1,0), (0,0)]`, whose
interior point 1 has coinciding neighbours. -/
theorem nan_propagation_coincident_neighbours_witness :
    NanPropagation [((0:ℝ), (0:ℝ)), ((1:ℝ), (0:ℝ)), ((0:ℝ), (0:ℝ))] 1 1 :=
  nan_propagation_coincident_neighbours
    [((0:ℝ), (0:ℝ)), ((1:ℝ), (0:ℝ)), ((0:ℝ), (0:ℝ))] 1 1
    (by norm_num) (by norm_num) (by norm_num) rfl

/-- C10: with fewer than 3 input points the issued commands do not depend
on the tension argument at all (the short branches never read it). -/
theorem tension_irrelevant_below_three (points : List Pt) (t1 t2 : ℝ)
    (hl : points.length < 3) :
    bezierCurveThrough points t1 = bezierCurveThrough points t2 := by
  rcases (by omega : points.length < 2 ∨ points.length = 2) with hc | hc
  · simp [bezierCurveThrough, hc]
  · simp [bezierCurveThrough, hc]

/-- Witness for C10: on a two-point input, tensions 1 and 2 issue the same
commands. -/
theorem tension_irrelevant_below_three_witness :
    bezierCurveThrough [((0:ℝ), (0:ℝ)), ((1:ℝ), (1:ℝ))] 1 =
      bezierCurveThrough [((0:ℝ), (0:ℝ)), ((1:ℝ), (1:ℝ))] 2 :=
  tension_irrelevant_below_three [((0:ℝ), (0:ℝ)), ((1:ℝ), (1:ℝ))] 1 2 (by simp)

/-- Counterexample to C7 as stated: the interior waypoints are not offset
by the curve index along both axes.  With the frame offset `k = 7`, the
first interior waypoint of curve 5 and of curve 3 have the same
x-coordinate (`230 + k`, independent of the curve index), while their
y-coordinates differ — the index offsets interior points along the
vertical axis only. -/
theorem tick_waypoints_counterexample :
    ((curvePoints 7 5).getD 1 ((0:ℝ), (0:ℝ))).1 =
      ((curvePoints 7 3).getD 1 ((0:ℝ), (0:ℝ))).1 ∧
    ((curvePoints 7 5).getD 1 ((0:ℝ), (0:ℝ))).2 ≠
      ((curvePoints 7 3).getD 1 ((0:ℝ), (0:ℝ))).2 := by
  have h5 : (curvePoints 7 5).getD 1 ((0:ℝ), (0:ℝ)) =
      (230 + 7, 100 + ((5:ℕ) : ℝ) * 9 + 7) := rfl
  have h3 : (curvePoints 7 3).getD 1 ((0:ℝ), (0:ℝ)) =
      (230 + 7, 100 + ((3:ℕ) : ℝ) * 9 + 7) := rfl
  rw [h5, h3]
  norm_num

/-- C7 (amended): on every tick the driver computes
`k = sin((e/5000)·2π)·40` from the elapsed time `e` and, for each curve
index `i < 70`, sets the interpolated stroke color and calls the
interpolator with tension 0.25 on exactly the 4-point sequence whose two
fixed endpoints are offset by `i` along the vertical axis and whose two
interior points are offset by `i` along the vertical axis and additionally
displaced by `k` along both axes. -/
theorem tick_waypoints (startFrame timeStamp : ℝ) :
    tickTrace startFrame timeStamp =
      Cmd.clearRect ::
      (List.range 70).flatMap (fun i =>
        Cmd.setStrokeStyle (colorR i) (colorG i) (colorB i) ::
        bezierCurveThrough
          [((0:ℝ), (i : ℝ) * 4),
           (230 + Real.sin ((timeStamp - startFrame) / 5000 * (2 * Real.pi)) * 40,
            100 + (i : ℝ) * 9 +
              Real.sin ((timeStamp - startFrame) / 5000 * (2 * Real.pi)) * 40),
           (500 + Real.sin ((timeStamp - startFrame) / 5000 * (2 * Real.pi)) * 40,
            300 + (i : ℝ) * 9 +
              Real.sin ((timeStamp - startFrame) / 5000 * (2 * Real.pi)) * 40),
           ((800:ℝ), 300 + (i : ℝ) * 8)]
          0.25) := by
  have harg : (timeStamp - startFrame) / 5000 * Real.pi * 2 =
      (timeStamp - startFrame) / 5000 * (2 * Real.pi) := by ring
  simp only [tickTrace, curvePoints, harg, zero_add]

/-! Helper lemmas for the driver state machine. -/

theorem reachable_pending_eq_lastFrame (ts0 : ℝ) (s : DriverState)
    (hr : Reachable ts0 s) : s.torn = false → s.pending = s.lastFrame := by
  induction hr with
  | refl => intro _; rfl
  | tail hab hstep ih =>
    cases hstep with
    | frame ts hdl h1 h2 => intro _; rfl
    | tear h1 =>
      intro hcon
      simp [cleanup] at hcon

theorem reachable_startFrame (ts0 : ℝ) (s : DriverState) (hr : Reachable ts0 s) :
    s.startFrame = some ts0 := by
  induction hr with
  | refl => rfl
  | tail hab hstep ih =>
    cases hstep with
    | frame ts hdl h1 h2 => simp [runTick, ih]
    | tear h1 => simpa [cleanup] using ih

/-- Counterexample to C8 as stated: mounting at timestamp 0 and then
running the cleanup appends, after the `cancel` of the pending request, a
`draw reset` event — `context.reset()` is a mutation of the drawing
surface issued by the cleanup itself after the cancellation. -/
theorem teardown_reset_after_cancel_counterexample :
    (cleanup (mount 0)).events =
      (mount 0).events ++ [HostEv.cancel 0, HostEv.draw Cmd.reset] := rfl

/-- C8 (amended): from any reachable running state, the cleanup cancels
the pending frame request (none remains pending) and no further step — in
particular no tick and no surface mutation by a tick — is possible
afterwards; however the cleanup itself issues one final surface mutation,
`context.reset()`, after the cancellation. -/
theorem teardown_cancels_and_stops (ts0 : ℝ) (s : DriverState)
    (hr : Reachable ts0 s) (hrun : s.torn = false) :
    (cleanup s).pending = none ∧
    (∀ s2, ¬ Step (cleanup s) s2) ∧
    (cleanup s).events =
      s.events ++ [HostEv.cancel (s.lastFrame.getD 0), HostEv.draw Cmd.reset] := by
  refine ⟨?_, ?_, rfl⟩
  · have hpl := reachable_pending_eq_lastFrame ts0 s hr hrun
    simp [cleanup, hpl]
  · intro s2 hstep
    have htorn : (cleanup s).torn = true := rfl
    cases hstep with
    | frame ts hdl h1 h2 =>
      rw [htorn] at h1
      exact Bool.noConfusion h1
    | tear h1 =>
      rw [htorn] at h1
      exact Bool.noConfusion h1

/-- Witness for the amended C8 at the mount state itself (reachable by the
empty sequence of steps). -/
theorem teardown_cancels_and_stops_witness :
    (cleanup (mount 0)).pending = none ∧
    (∀ s2, ¬ Step (cleanup (mount 0)) s2) ∧
    (cleanup (mount 0)).events =
      (mount 0).events ++
        [HostEv.cancel ((mount 0).lastFrame.getD 0), HostEv.draw Cmd.reset] :=
  teardown_cancels_and_stops 0 (mount 0) Relation.ReflTransGen.refl rfl

/-! Helper lemmas for the `startFrame ??=` fold. -/

theorem elapsedRun_some (x : ℝ) (l : List ℝ) :
    elapsedRun (some x) l = l.map (fun ts => ts - x) := by
  induction l with
  | nil => rfl
  | cons a rest ih => simp [elapsedRun, ih]

theorem finalStart_some (x : ℝ) (l : List ℝ) :
    finalStart (some x) l = some x := by
  induction l with
  | nil => rfl
  | cons a rest ih => simpa [finalStart] using ih

/-- C9: over a run whose delivered timestamps are non-decreasing,
`startFrame` is assigned exactly once — it ends up (and, by
`finalStart_some`-style persistence, stays) equal to the first delivered
timestamp, both in the tick fold and in every reachable driver state — and
the derived elapsed values are `ts - ts0` for the successive timestamps,
hence non-negative and non-decreasing. -/
theorem startFrame_once_and_elapsed_monotone (ts0 : ℝ) (tss : List ℝ)
    (hmono : List.Chain' (fun a b => a ≤ b) (ts0 :: tss)) :
    finalStart none (ts0 :: tss) = some ts0 ∧
    (∀ s, Reachable ts0 s → s.startFrame = some ts0) ∧
    elapsedRun none (ts0 :: tss) = (ts0 :: tss).map (fun ts => ts - ts0) ∧
    (∀ e ∈ elapsedRun none (ts0 :: tss), 0 ≤ e) ∧
    List.Chain' (fun a b => a ≤ b) (elapsedRun none (ts0 :: tss)) := by
  have hrun : elapsedRun none (ts0 :: tss) = (ts0 :: tss).map (fun ts => ts - ts0) := by
    simp [elapsedRun, elapsedRun_some]
  have hpair : ∀ ts ∈ tss, ts0 ≤ ts := by
    have hp := List.chain'_iff_pairwise.mp hmono
    exact (List.pairwise_cons.mp hp).1
  refine ⟨by simp [finalStart, finalStart_some], fun s hr => reachable_startFrame ts0 s hr,
    hrun, ?_, ?_⟩
  · intro e he
    rw [hrun] at he
    simp only [List.mem_map, List.mem_cons] at he
    obtain ⟨ts, hts | hts, rfl⟩ := he
    · simp [hts]
    · have := hpair ts hts
      linarith
  · rw [hrun, List.chain'_map]
    exact hmono.imp (fun a b hab => by linarith)

/-- Witness for C9 on the concrete run `[0, 1, 5]` of non-decreasing
timestamps. -/
theorem startFrame_once_and_elapsed_monotone_witness :
    finalStart none [(0:ℝ), 1, 5] = some 0 ∧
    (∀ s, Reachable 0 s → s.startFrame = some 0) ∧
    elapsedRun none [(0:ℝ), 1, 5] = ([(0:ℝ), 1, 5]).map (fun ts => ts - 0) ∧
    (∀ e ∈ elapsedRun none [(0:ℝ), 1, 5], 0 ≤ e) ∧
    List.Chain' (fun a b => a ≤ b) (elapsedRun none [(0:ℝ), 1, 5]) :=
  startFrame_once_and_elapsed_monotone 0 [1, 5] (by
    simp only [List.chain'_cons, List.chain'_singleton, and_true]
    norm_num)

end
